import Mathlib

/-!
Verification of the capture/dispatch core of candump.c (a Python-embedded
variant of can-utils candump).  The definitions below are a shallow embedding
of the C source: machine integers become Nat with explicit reductions modulo
2^w where the C code can overflow or truncate, C doubles become rationals,
the global mutable state of the module becomes an explicit state record, and
fallible operations return Option.  Line references are to src/candump.c.
-/

namespace Candump

/-! ## Constants (candump.c lines 86-112 and linux/can.h) -/

/-- FRAME_BUFFER_SIZE (line 106). -/
def FRAME_BUFFER_SIZE : Nat := 256

/-- CAN_EXTENDED_ID_MASK (line 107): mask of the 29 identifier bits. -/
def CAN_EXTENDED_ID_MASK : Nat := 0x1FFFFFFF

/-- CAN_EFF_FLAG from linux/can.h: extended frame format flag, bit 31. -/
def CAN_EFF_FLAG : Nat := 0x80000000

/-- CAN_ERR_FLAG from linux/can.h: error message frame flag, bit 29. -/
def CAN_ERR_FLAG : Nat := 0x20000000

/-- CAN_INV_FILTER from linux/can.h: invert-filter marker, bit 29. -/
def CAN_INV_FILTER : Nat := 0x20000000

/-- Complement of CAN_ERR_FLAG as an unsigned 32-bit value: the C expression
writing the mask is can_mask AND NOT CAN_ERR_FLAG (line 487/495). -/
def NOT_CAN_ERR_FLAG : Nat := 0xDFFFFFFF

/-- CAN_MTU = sizeof(struct can_frame) = 16 bytes (linux/can.h). -/
def CAN_MTU : Nat := 16

/-- CANFD_MTU = sizeof(struct canfd_frame) = 72 bytes (linux/can.h). -/
def CANFD_MTU : Nat := 72

/-- CAN_MAX_DLEN = 8 (linux/can.h). -/
def CAN_MAX_DLEN : Nat := 8

/-- CANFD_MAX_DLEN = 64 (linux/can.h). -/
def CANFD_MAX_DLEN : Nat := 64

/-- MAXIFNAMES (line 87): size of the interface index cache. -/
def MAXIFNAMES : Nat := 30

/-- 2^32, the modulus of the C type unsigned int / __u32. -/
def UINT_MOD : Nat := 4294967296

/-- 2^16, the modulus of the C type unsigned short (the H format of
Py_BuildValue, line 865). -/
def USHORT_MOD : Nat := 65536

/-! ## The frame record and the module's mutable state -/

/-- struct canframe (lines 146-152).  The C double timestamp is modeled as a
rational; data is the 8-byte array, modeled as the list of its bytes. -/
structure canframe where
  timestamp : ℚ
  len : Nat
  arbitration_id : Nat
  data : List Nat

/-- The module's global mutable state: frame_buffer (line 153), buffer_ptr
and read_ptr (lines 142-143), and the volatile stop flag running
(line 140). -/
structure GlobalState where
  frame_buffer : Nat → canframe
  buffer_ptr : Nat
  read_ptr : Nat
  running : Nat

/-- The zeroed frame produced by init_buffer (lines 330-340). -/
def zero_frame : canframe :=
  { timestamp := 0, len := 0, arbitration_id := 0, data := List.replicate 8 0 }

/-- The state at entry of loop after init_buffer (line 405): all slots
zeroed, both cursors 0, running = 1. -/
def init_state : GlobalState :=
  { frame_buffer := fun _ => zero_frame, buffer_ptr := 0, read_ptr := 0,
    running := 1 }

/-- Registering a received CAN frame in the buffer (loop, lines 737-744):
  frame_buffer[buffer_ptr].arbitration_id = (uint32_t)(frame.can_id AND CAN_EXTENDED_ID_MASK);
  frame_buffer[buffer_ptr].len = (uint8_t) frame.len;
  memcpy(frame_buffer[buffer_ptr].data, frame.data, (int) frame.len);
  frame_buffer[buffer_ptr].timestamp = (double) tv.tv_sec + (double) tv.tv_usec / 1E6;
  buffer_ptr = (buffer_ptr + 1) % FRAME_BUFFER_SIZE;
memcpy overwrites the first len bytes of the slot's 8-byte data array and
leaves the rest of the slot as it was; that is modeled with take/drop (for
len ≤ 8; a CAN FD len over 8 would overflow the 8-byte field in C, which is
out of the scope of the claims).  The double arithmetic on the timestamp is
modeled exactly over the rationals. -/
def register_frame (σ : GlobalState) (can_id flen : Nat) (fdata : List Nat)
    (tv_sec tv_usec : Nat) : GlobalState :=
  let old := σ.frame_buffer σ.buffer_ptr
  let len8 := flen % 256
  let fr : canframe :=
    { arbitration_id := Nat.land can_id CAN_EXTENDED_ID_MASK,
      len := len8,
      data := fdata.take len8 ++ old.data.drop len8,
      timestamp := (tv_sec : ℚ) + (tv_usec : ℚ) / 1000000 }
  { σ with
    frame_buffer := fun j => if j = σ.buffer_ptr then fr else σ.frame_buffer j,
    buffer_ptr := (σ.buffer_ptr + 1) % FRAME_BUFFER_SIZE }

/-- get_frame_from_buffer (lines 857-869).  Returns None when the read
cursor has caught the write cursor; otherwise builds the Python tuple
(H,I,y#,d) from the slot at read_ptr and advances read_ptr.  The H format
converts the 32-bit arbitration id to unsigned short, hence the reduction
modulo 2^16; y# takes len bytes of the data array. -/
def get_frame_from_buffer (σ : GlobalState) :
    Option (Nat × Nat × List Nat × ℚ) × GlobalState :=
  if σ.read_ptr = σ.buffer_ptr then (none, σ)
  else
    let fr := σ.frame_buffer σ.read_ptr
    (some (fr.arbitration_id % USHORT_MOD, fr.len, fr.data.take fr.len,
           fr.timestamp),
     { σ with read_ptr := (σ.read_ptr + 1) % FRAME_BUFFER_SIZE })

/-- The C function terminate (lines 850-855): sets running = 0. -/
def terminate (σ : GlobalState) : GlobalState := { σ with running := 0 }

/-- The C functions that can be registered in the module's method table. -/
inductive CFunc where
  | call_loop_fn
  | get_frame_from_buffer_fn
  | terminate_fn
deriving DecidableEq

/-- One PyMethodDef entry: exported name, the C function it dispatches to,
and its docstring. -/
structure PyMethodDef where
  ml_name : String
  ml_meth : CFunc
  ml_doc : String

/-- FputsMethods (lines 871-876), the module's method table, exactly as in
the source: the entry named terminate is wired to get_frame_from_buffer,
not to the C function terminate. -/
def FputsMethods : List PyMethodDef :=
  [ { ml_name := "loop", ml_meth := CFunc.call_loop_fn,
      ml_doc := "Python interface for candump C library function" },
    { ml_name := "recv", ml_meth := CFunc.get_frame_from_buffer_fn,
      ml_doc := "Extracts last message from buffer" },
    { ml_name := "terminate", ml_meth := CFunc.get_frame_from_buffer_fn,
      ml_doc := "Stops the reception loop" } ]

/-- Looking up an exported name in the method table (what Python method
dispatch does). -/
def method_lookup (name : String) : Option CFunc :=
  (FputsMethods.find? (fun m => m.ml_name == name)).map PyMethodDef.ml_meth

/-! ## reverse_endian (lines 321-326) -/

/-- reverse_endian(src, dst, len) writes dst[i] = src[len - i - 1] for
0 ≤ i < len; the C loop never writes src and leaves dst outside [0, len)
untouched.  Buffers are modeled as functions from index to byte; the result
is the updated dst. -/
def reverse_endian (src dst : Nat → Nat) (len : Nat) : Nat → Nat :=
  fun i => if i < len then src (len - i - 1) else dst i

/-! ## The epoll_wait timeout (lines 110 and 645) -/

/-- DEFAULT_TIMEOUT (line 110) is the C double literal 0.2, i.e. 2/10.
(The IEEE double nearest to 0.2 differs from 2/10 only after the 16th
decimal digit, which cannot change an int conversion.) -/
def DEFAULT_TIMEOUT : ℚ := 2 / 10

/-- C implicit conversion from double to int: truncation toward zero. -/
def c_double_to_int (x : ℚ) : Int := if 0 ≤ x then ⌊x⌋ else ⌈x⌉

/-- The fourth argument of epoll_wait in the capture loop (line 645), after
C's implicit double-to-int conversion of DEFAULT_TIMEOUT.  epoll_wait
interprets it in milliseconds. -/
def epoll_wait_timeout_arg : Int := c_double_to_int DEFAULT_TIMEOUT

/-! ## Receive-size classification (loop, lines 675-682) -/

/-- The branch at lines 675-682: nbytes equal to CAN_MTU selects the
classic maximum data length, CANFD_MTU selects the FD one, and any other
size returns none, modeling the fatal protocol error path
(fprintf "read: incomplete CAN frame"; return _raise_system_error()). -/
def classify_nbytes (nbytes : Nat) : Option Nat :=
  if nbytes = CAN_MTU then some CAN_MAX_DLEN
  else if nbytes = CANFD_MTU then some CANFD_MAX_DLEN
  else none

/-! ## Drop tracker (struct if_info, lines 121-126; loop, lines 709-723) -/

/-- The drop counters of one socket (struct if_info); both are __u32. -/
structure if_info where
  dropcnt : Nat
  last_dropcnt : Nat
deriving DecidableEq

/-- The per-cycle drop check (lines 709-723): when dropcnt differs from
last_dropcnt, report frames = dropcnt - last_dropcnt (unsigned 32-bit
subtraction) together with the cumulative total, and update last_dropcnt;
otherwise no event. -/
def drop_check (obj : if_info) : Option (Nat × Nat) × if_info :=
  if obj.dropcnt ≠ obj.last_dropcnt then
    (some ((obj.dropcnt + UINT_MOD - obj.last_dropcnt) % UINT_MOD, obj.dropcnt),
     { obj with last_dropcnt := obj.dropcnt })
  else (none, obj)

/-! ## Interface index cache (idx2dindex, lines 202-250) -/

/-- The cache dindex[MAXIFNAMES] (line 130), a list of MAXIFNAMES kernel
interface indices; 0 marks a free entry. -/
structure CacheState where
  dindex : List Nat

/-- Result of idx2dindex: either the display slot returned, or the fatal
exit(1) of lines 228-232 (which prints the cache-exhaustion diagnostic
before terminating the process). -/
inductive IdxResult where
  | slot (i : Nat)
  | fatal
deriving DecidableEq

/-- The zombie sweep applied to one cache entry (lines 216-222): an
occupied entry whose interface index no longer resolves to a name (the
SIOCGIFNAME ioctl fails) is freed.  resolves is the oracle for that
ioctl. -/
def invalidate_stale (resolves : Nat → Bool) (d : Nat) : Nat :=
  if d ≠ 0 ∧ resolves d = false then 0 else d

/-- idx2dindex (lines 202-250) without the name bookkeeping: scan for a
hit; on a miss, sweep the zombies, take the first free slot, store the new
index there, or exit fatally when no slot is free after the sweep. -/
def idx2dindex (resolves : Nat → Bool) (ifidx : Nat) (σ : CacheState) :
    IdxResult × CacheState :=
  match σ.dindex.findIdx? (fun d => d == ifidx) with
  | some i => (IdxResult.slot i, σ)
  | none =>
    let swept := σ.dindex.map (invalidate_stale resolves)
    match swept.findIdx? (fun d => d == 0) with
    | some i => (IdxResult.slot i, { dindex := swept.set i ifidx })
    | none => (IdxResult.fatal, { dindex := swept })

/-! ## Filter token parsing (loop, lines 480-505) -/

/-- Hex digit recognition of sscanf %x (plain digits; the whitespace, sign
and 0x-prefix extensions of strtoul never occur in the filter grammar and
are outside this model). -/
def isHex (c : Char) : Bool :=
  (decide ('0' ≤ c) && decide (c ≤ '9')) ||
  (decide ('a' ≤ c) && decide (c ≤ 'f')) ||
  (decide ('A' ≤ c) && decide (c ≤ 'F'))

/-- Value of one hex digit. -/
def hexDigitVal (c : Char) : Nat :=
  if decide ('0' ≤ c) && decide (c ≤ '9') then c.toNat - '0'.toNat
  else if decide ('a' ≤ c) && decide (c ≤ 'f') then c.toNat - 'a'.toNat + 10
  else c.toNat - 'A'.toNat + 10

/-- Value of a string of hex digits. -/
def hexVal (l : List Char) : Nat :=
  l.foldl (fun a c => 16 * a + hexDigitVal c) 0

/-- sscanf(ptr, "%x<sep>%x", ...) == 2: a nonempty run of hex digits, the
separator, a nonempty run of hex digits (trailing characters are ignored,
as sscanf does).  Stores are into unsigned int, hence the reduction modulo
2^32. -/
def scan_hex_sep_hex (sep : Char) (s : List Char) : Option (Nat × Nat) :=
  let d1 := s.takeWhile isHex
  match s.dropWhile isHex with
  | [] => none
  | c :: rest =>
    if c = sep then
      let d2 := rest.takeWhile isHex
      if d1.length = 0 ∨ d2.length = 0 then none
      else some (hexVal d1 % UINT_MOD, hexVal d2 % UINT_MOD)
    else none

/-- What one filter token contributes (lines 484-504): an entry of
rfilter, the join flag, the error mask, or the fatal parse error
(fprintf "Error in filter option parsing"; return _raise_system_error()). -/
inductive FilterAction where
  | accept (can_id can_mask : Nat)
  | joinFlag
  | errFilter (mask : Nat)
  | parseError
deriving DecidableEq

/-- The character *(ptr + 8) used by the extended-id inference.  Reading
past the token's terminator (a token shorter than 9 characters) is modeled
as no character. -/
def charAt8 (s : List Char) : Option Char := s[8]?

/-- Parsing of one filter token (lines 484-504), in the source's order:
  - "%x:%x": can_mask gets AND NOT CAN_ERR_FLAG; if *(ptr+8) is a colon,
    can_id gets OR CAN_EFF_FLAG;
  - "%x~%x": same, plus can_id gets OR CAN_INV_FILTER, testing *(ptr+8)
    against the tilde;
  - a token starting with j or J sets the join flag;
  - "#%x" sets the error mask;
  - anything else is the fatal parse error. -/
def parse_filter_token (s : List Char) : FilterAction :=
  match scan_hex_sep_hex ':' s with
  | some (cid, cmask) =>
    let cid' := if charAt8 s = some ':' then Nat.lor cid CAN_EFF_FLAG else cid
    FilterAction.accept cid' (Nat.land cmask NOT_CAN_ERR_FLAG)
  | none =>
    match scan_hex_sep_hex '~' s with
    | some (cid, cmask) =>
      let cid0 := Nat.lor cid CAN_INV_FILTER
      let cid' := if charAt8 s = some '~' then Nat.lor cid0 CAN_EFF_FLAG else cid0
      FilterAction.accept cid' (Nat.land cmask NOT_CAN_ERR_FLAG)
    | none =>
      match s with
      | [] => FilterAction.parseError
      | c :: rest =>
        if c = 'j' ∨ c = 'J' then FilterAction.joinFlag
        else if c = '#' then
          let d := rest.takeWhile isHex
          if d.length = 0 then FilterAction.parseError
          else FilterAction.errFilter (hexVal d % UINT_MOD)
        else FilterAction.parseError

/-! ## Instrumented ring buffer runs

For the ordering claims the states are instrumented with history (ghost)
fields: tag j records 1 + the zero-based ordinal of the push that last
wrote frame_buffer[j] (0 when the slot still holds its init_buffer
content), and pushes counts the pushes so far.  The observable fields
evolve exactly by register_frame and get_frame_from_buffer. -/

structure IState where
  st : GlobalState
  tag : Nat → Nat
  pushes : Nat

/-- The instrumented initial state. -/
def iinit : IState := { st := init_state, tag := fun _ => 0, pushes := 0 }

/-- One producer step: register_frame on the observable state, recording
the ordinal of this push in the ghost tag of the slot it writes. -/
def ipush (σ : IState) (can_id flen : Nat) (fdata : List Nat)
    (tv_sec tv_usec : Nat) : IState :=
  { st := register_frame σ.st can_id flen fdata tv_sec tv_usec,
    tag := fun j => if j = σ.st.buffer_ptr then σ.pushes + 1 else σ.tag j,
    pushes := σ.pushes + 1 }

/-- One consumer step: get_frame_from_buffer on the observable state; a
successful pop reports (ghost tag of the slot read, pushes so far). -/
def ipop (σ : IState) : Option (Nat × Nat) × IState :=
  match get_frame_from_buffer σ.st with
  | (none, st2) => (none, { st := st2, tag := σ.tag, pushes := σ.pushes })
  | (some _, st2) =>
    (some (σ.tag σ.st.read_ptr, σ.pushes),
     { st := st2, tag := σ.tag, pushes := σ.pushes })

/-- One operation of an interleaving: a push (with the received frame's
fields) or a pop. -/
inductive Op where
  | push (can_id flen : Nat) (fdata : List Nat) (tv_sec tv_usec : Nat)
  | pop

/-- A push whose frame content is irrelevant. -/
def dpush : Op := Op.push 0 0 [] 0 0

/-- Run a list of operations, collecting the reports of the successful
pops in order. -/
def runOps : List Op → IState → IState × List (Nat × Nat)
  | [], σ => (σ, [])
  | Op.push a b c d e :: rest, σ => runOps rest (ipush σ a b c d e)
  | Op.pop :: rest, σ =>
    match ipop σ with
    | (none, σ2) => runOps rest σ2
    | (some pr, σ2) =>
      let r := runOps rest σ2
      (r.1, pr :: r.2)

/-- The ordinal of the push holding slot j after p pushes: the largest
k ≤ p with (k - 1) % 256 = j, or 0 when no push has written slot j. -/
def lastWrite (p j : Nat) : Nat :=
  if j + 1 ≤ p then p - (p - (j + 1)) % 256 else 0

/-- The run invariant: p pushes and s successful pops have happened,
lastP is the report of the latest successful pop (0 if none). -/
def Inv (σ : IState) (s lastP : Nat) : Prop :=
  σ.st.buffer_ptr = σ.pushes % 256 ∧
  σ.st.read_ptr = s % 256 ∧
  s ≤ σ.pushes ∧
  (∀ j, j < 256 → σ.tag j = lastWrite σ.pushes j) ∧
  ((s = 0 ∧ lastP = 0) ∨
   (lastP % 256 = s % 256 ∧ lastP ≤ σ.pushes ∧ 1 ≤ lastP))

/-! ## Theorems -/

/-- C10: reverse_endian writes dst[i] = src[len - 1 - i] for every i < len
(the source buffer is only read, never written, by the loop at lines
321-326), and applying reverse_endian twice restores the original byte
order on [0, len). -/
theorem C10_reverse_endian_involution (src dst : Nat → Nat) (len i : Nat)
    (h : i < len) :
    reverse_endian src dst len i = src (len - 1 - i) ∧
    (∀ dst2 : Nat → Nat,
      reverse_endian (reverse_endian src dst len) dst2 len i = src i) := by
  constructor
  · have : len - i - 1 = len - 1 - i := by omega
    simp [reverse_endian, h, this]
  · intro dst2
    have h2 : len - i - 1 < len := by omega
    simp only [reverse_endian, if_pos h, if_pos h2]
    congr 1
    omega

/-- Witness for C10 at src = identity, len = 4, i = 1. -/
theorem C10_witness :
    reverse_endian (fun j => j) (fun _ => 0) 4 1 = 2 ∧
    reverse_endian (reverse_endian (fun j => j) (fun _ => 0) 4)
      (fun _ => 0) 4 1 = 1 := by
  have h := C10_reverse_endian_involution (fun j => j) (fun _ => 0) 4 1
    (by decide)
  exact ⟨by simpa using h.1, by simpa using h.2 (fun _ => 0)⟩

/-- C8: a receive byte count equal to CAN_MTU selects the classic 8-byte
maximum data length, CANFD_MTU selects the 64-byte FD one, and any other
count hits the fatal protocol-error branch (modeled by none, the return of
_raise_system_error at lines 679-682 that stops the loop with an error
outcome). -/
theorem C8_recv_size_classification (n : Nat) (h1 : n ≠ CAN_MTU)
    (h2 : n ≠ CANFD_MTU) :
    classify_nbytes CAN_MTU = some CAN_MAX_DLEN ∧
    classify_nbytes CANFD_MTU = some CANFD_MAX_DLEN ∧
    classify_nbytes n = none := by
  refine ⟨by decide, by decide, ?_⟩
  simp [classify_nbytes, h1, h2]

/-- Witness for C8 at the invalid size 17. -/
theorem C8_witness :
    classify_nbytes 17 = none ∧ classify_nbytes 16 = some 8 ∧
    classify_nbytes 72 = some 64 := by
  have h := C8_recv_size_classification 17 (by decide) (by decide)
  exact ⟨h.2.2, h.1, h.2.1⟩

/-- C7: when the sampled kernel drop counter differs from the last
observed value, the tracker (lines 709-723) reports exactly
current - last_observed and updates last_observed to current, so an
immediately repeated identical sample reports nothing.  The hypotheses
last_dropcnt ≤ dropcnt < 2^32 state that the kernel counter is a
monotonically non-decreasing 32-bit value since the last sample. -/
theorem C7_drop_delta (obj : if_info) (hle : obj.last_dropcnt ≤ obj.dropcnt)
    (hub : obj.dropcnt < UINT_MOD) (hne : obj.dropcnt ≠ obj.last_dropcnt) :
    (drop_check obj).1 = some (obj.dropcnt - obj.last_dropcnt, obj.dropcnt) ∧
    (drop_check obj).2.last_dropcnt = obj.dropcnt ∧
    (drop_check (drop_check obj).2).1 = none := by
  have hmod : (obj.dropcnt + UINT_MOD - obj.last_dropcnt) % UINT_MOD
      = obj.dropcnt - obj.last_dropcnt := by
    unfold UINT_MOD at *
    omega
  refine ⟨?_, ?_, ?_⟩
  · simp [drop_check, hne, hmod]
  · simp [drop_check, hne]
  · simp [drop_check, hne]

/-- Witness for C7: current 107, last observed 100 reports a delta of 7,
and the repeated sample reports nothing. -/
theorem C7_witness :
    (drop_check ⟨107, 100⟩).1 = some (7, 107) ∧
    (drop_check ⟨107, 100⟩).2.last_dropcnt = 107 ∧
    (drop_check (drop_check ⟨107, 100⟩).2).1 = none := by
  have h := C7_drop_delta ⟨107, 100⟩ (by decide) (by decide) (by decide)
  simpa using h

/-- C4 (code bug): DEFAULT_TIMEOUT is 0.2 -- i.e. 200 ms expressed in
seconds -- but epoll_wait takes an int timeout in milliseconds, so the
implicit double-to-int conversion at the call (line 645) passes 0: the
wait never blocks, instead of blocking for about 200 ms as the constant
intends. -/
theorem C4_timeout_truncates_to_zero :
    epoll_wait_timeout_arg = 0 ∧ DEFAULT_TIMEOUT * 1000 = 200 ∧
    epoll_wait_timeout_arg ≠ 200 := by
  have h0 : epoll_wait_timeout_arg = 0 := by
    unfold epoll_wait_timeout_arg c_double_to_int DEFAULT_TIMEOUT
    rw [if_pos (by norm_num)]
    norm_num
  refine ⟨h0, by norm_num [DEFAULT_TIMEOUT], by rw [h0]; decide⟩

/-- C2 (code bug): the method table entry named terminate (line 874) is
wired to get_frame_from_buffer, not to the C function terminate, although
its own docstring says it stops the reception loop.  Calling the exposed
terminate on a state with running = 1 and one unread frame therefore
consumes and returns that frame and leaves running = 1, while the
(unregistered) C function terminate would set running = 0 without touching
the buffer and is idempotent. -/
theorem C2_exposed_terminate_pops_frame :
    method_lookup "terminate" = some CFunc.get_frame_from_buffer_fn ∧
    method_lookup "terminate" ≠ some CFunc.terminate_fn ∧
    ((get_frame_from_buffer (register_frame init_state 100 1 [42] 3 0)).1).isSome
      = true ∧
    (get_frame_from_buffer (register_frame init_state 100 1 [42] 3 0)).2.running
      = 1 ∧
    (get_frame_from_buffer (register_frame init_state 100 1 [42] 3 0)).2.read_ptr
      = 1 ∧
    (terminate (register_frame init_state 100 1 [42] 3 0)).running = 0 ∧
    terminate (terminate (register_frame init_state 100 1 [42] 3 0))
      = terminate (register_frame init_state 100 1 [42] 3 0) := by
  refine ⟨by decide, by decide, by decide, by decide, by decide, by decide, rfl⟩

/-- C3 counterexample: a received can_id with the extended-frame flag set
(0x80000123 = CAN_EFF_FLAG OR 0x123) is stored and returned with that flag
cleared -- line 737 masks the id with CAN_EXTENDED_ID_MASK = 0x1FFFFFFF,
which drops bit 31 -- so the flag is not encoded in-band. -/
theorem C3_eff_flag_not_preserved :
    (get_frame_from_buffer (register_frame init_state 0x80000123 0 [] 0 0)).1
      = some (0x123, 0, [], 0) ∧
    Nat.land 0x80000123 CAN_EFF_FLAG = CAN_EFF_FLAG ∧
    Nat.land 0x123 CAN_EFF_FLAG = 0 := by
  have hland : Nat.land 0x80000123 CAN_EXTENDED_ID_MASK = 0x123 := by decide
  refine ⟨?_, by decide, by decide⟩
  simp [get_frame_from_buffer, register_frame, init_state, zero_frame,
    FRAME_BUFFER_SIZE, USHORT_MOD, hland]

/-- C3 amended: a frame popped right after being received carries the
arbitration id masked with CAN_EXTENDED_ID_MASK (the EFF flag is cleared,
not preserved) and further reduced modulo 2^16 by the tuple's
unsigned-short format, together with the payload length, the payload bytes
(up to 8), and the timestamp tv_sec + tv_usec / 1e6. -/
theorem C3_pop_carries_masked_id (σ : GlobalState) (can_id flen : Nat)
    (fdata : List Nat) (sec usec : Nat)
    (hempty : σ.read_ptr = σ.buffer_ptr) (hb : σ.buffer_ptr < FRAME_BUFFER_SIZE)
    (hlen : flen ≤ 8) (hdata : fdata.length = flen) :
    (get_frame_from_buffer (register_frame σ can_id flen fdata sec usec)).1
      = some (Nat.land can_id CAN_EXTENDED_ID_MASK % USHORT_MOD, flen, fdata,
              (sec : ℚ) + (usec : ℚ) / 1000000) := by
  have hflen : flen % 256 = flen := Nat.mod_eq_of_lt (by omega)
  have hb' : ¬ σ.buffer_ptr = (σ.buffer_ptr + 1) % FRAME_BUFFER_SIZE := by
    unfold FRAME_BUFFER_SIZE at hb ⊢
    omega
  simp [register_frame, get_frame_from_buffer, hempty, hb', hflen]
  rw [← hdata, List.take_length, List.take_left]

/-- Witness for C3 amended: can_id 0x91234567 (EFF flag set) with a 3-byte
payload at timestamp 7.25 s pops as id 0x11234567 mod 2^16. -/
theorem C3_witness :
    (get_frame_from_buffer
        (register_frame init_state 0x91234567 3 [1, 2, 3] 7 250000)).1
      = some (Nat.land 0x91234567 CAN_EXTENDED_ID_MASK % USHORT_MOD, 3,
              [1, 2, 3], ((7 : Nat) : ℚ) + ((250000 : Nat) : ℚ) / 1000000) :=
  C3_pop_carries_masked_id init_state 0x91234567 3 [1, 2, 3] 7 250000 rfl
    (by decide) (by decide) (by decide)

/-! ### Interface index cache: C6 -/

/-- C6: on a cache miss, idx2dindex first frees every occupied slot whose
index no longer resolves (the zombie sweep of lines 216-222), then
allocates the first slot free after that sweep, storing the new index
there; it hits the fatal exit(1) with its diagnostic (lines 228-232) if
and only if no slot is free after the sweep. -/
theorem C6_cache_miss_sweep_then_alloc (resolves : Nat → Bool) (ifidx : Nat)
    (σ : CacheState) (hlen : σ.dindex.length = MAXIFNAMES)
    (hmiss : ∀ d ∈ σ.dindex, d ≠ ifidx) :
    ((idx2dindex resolves ifidx σ).1 = IdxResult.fatal ↔
      ∀ d ∈ σ.dindex.map (invalidate_stale resolves), d ≠ 0) ∧
    (∀ i, (idx2dindex resolves ifidx σ).1 = IdxResult.slot i →
      (σ.dindex.map (invalidate_stale resolves)).findIdx? (fun d => d == 0)
          = some i ∧
      (idx2dindex resolves ifidx σ).2.dindex
          = (σ.dindex.map (invalidate_stale resolves)).set i ifidx) := by
  have h1 : σ.dindex.findIdx? (fun d => d == ifidx) = none := by
    rw [List.findIdx?_eq_none_iff]
    intro x hx
    simpa using hmiss x hx
  cases h2 : (σ.dindex.map (invalidate_stale resolves)).findIdx?
      (fun d => d == 0) with
  | none =>
    have hres : idx2dindex resolves ifidx σ
        = (IdxResult.fatal, ⟨σ.dindex.map (invalidate_stale resolves)⟩) := by
      simp [idx2dindex, h1, h2]
    rw [List.findIdx?_eq_none_iff] at h2
    refine ⟨⟨fun _ d hd => by simpa using h2 d hd, fun _ => by simp [hres]⟩,
            fun i hi => ?_⟩
    rw [hres] at hi
    simp at hi
  | some i =>
    have hres : idx2dindex resolves ifidx σ
        = (IdxResult.slot i,
           ⟨(σ.dindex.map (invalidate_stale resolves)).set i ifidx⟩) := by
      simp [idx2dindex, h1, h2]
    constructor
    · constructor
      · intro hf
        rw [hres] at hf
        simp at hf
      · intro hall
        rw [List.findIdx?_eq_some_iff_getElem] at h2
        obtain ⟨hilen, hp, _⟩ := h2
        exact absurd (by simpa using hp)
          (hall _ (List.getElem_mem hilen))
    · intro k hk
      rw [hres] at hk
      simp only [IdxResult.slot.injEq] at hk
      subst hk
      exact ⟨rfl, by rw [hres]⟩

/-- Witness for C6: a 30-entry cache holding stale index 7 (no longer
resolving), live index 5, and stale 9s; looking up the unseen index 4
reclaims slot 0. -/
theorem C6_witness :
    (((7 :: 5 :: List.replicate 28 9).map
        (invalidate_stale (fun d => d == 5))).findIdx? (fun d => d == 0)
      = some 0) ∧
    (idx2dindex (fun d => d == 5) 4 ⟨7 :: 5 :: List.replicate 28 9⟩).2.dindex
      = ((7 :: 5 :: List.replicate 28 9).map
          (invalidate_stale (fun d => d == 5))).set 0 4 := by
  have h := C6_cache_miss_sweep_then_alloc (fun d => d == 5) 4
    ⟨7 :: 5 :: List.replicate 28 9⟩ (by decide) (by decide)
  exact h.2 0 (by decide)

/-! ### Filter token parsing: helper lemmas and C5 -/

theorem takeWhile_append_sep (p : Char → Bool) (d1 d2 : List Char)
    (sep : Char) (hall : ∀ c ∈ d1, p c = true) (hsep : p sep = false) :
    (d1 ++ sep :: d2).takeWhile p = d1 ∧
    (d1 ++ sep :: d2).dropWhile p = sep :: d2 := by
  induction d1 with
  | nil => simp [List.takeWhile_cons, List.dropWhile_cons, hsep]
  | cons a l ih =>
    have ha : p a = true := hall a (by simp)
    have ih' := ih (fun c hc => hall c (by simp [hc]))
    simp [List.takeWhile_cons, List.dropWhile_cons, ha, ih'.1, ih'.2]

theorem takeWhile_eq_self_of_all (p : Char → Bool) (l : List Char)
    (h : ∀ c ∈ l, p c = true) : l.takeWhile p = l := by
  induction l with
  | nil => simp
  | cons a t ih =>
    simp [List.takeWhile_cons, h a (by simp),
      ih (fun c hc => h c (by simp [hc]))]

theorem scan_on_grammar (sep : Char) (d1 d2 : List Char)
    (h1 : d1 ≠ []) (h2 : d2 ≠ [])
    (ha1 : ∀ c ∈ d1, isHex c = true) (ha2 : ∀ c ∈ d2, isHex c = true)
    (hsep : isHex sep = false) :
    scan_hex_sep_hex sep (d1 ++ sep :: d2)
      = some (hexVal d1 % UINT_MOD, hexVal d2 % UINT_MOD) := by
  obtain ⟨ht, hd⟩ := takeWhile_append_sep isHex d1 d2 sep ha1 hsep
  have hlen : ¬ (d1.length = 0 ∨ d2.length = 0) := by
    simp [List.length_eq_zero, h1, h2]
  simp only [scan_hex_sep_hex, ht, hd,
    takeWhile_eq_self_of_all isHex d2 ha2]
  rw [if_pos trivial, if_neg hlen]

theorem scan_other_sep_fails (sep sep2 : Char) (d1 d2 : List Char)
    (ha1 : ∀ c ∈ d1, isHex c = true) (hsep : isHex sep = false)
    (hne : ¬ sep = sep2) :
    scan_hex_sep_hex sep2 (d1 ++ sep :: d2) = none := by
  obtain ⟨ht, hd⟩ := takeWhile_append_sep isHex d1 d2 sep ha1 hsep
  simp only [scan_hex_sep_hex, ht, hd, if_neg hne]

theorem charAt8_grammar (sep : Char) (d1 d2 : List Char)
    (ha1 : ∀ c ∈ d1, isHex c = true) (ha2 : ∀ c ∈ d2, isHex c = true)
    (hsep : isHex sep = false) :
    (charAt8 (d1 ++ sep :: d2) = some sep ↔ d1.length = 8) := by
  unfold charAt8
  constructor
  · intro h
    by_contra hne
    rcases Nat.lt_or_ge d1.length 8 with hlt | hge
    · rw [List.getElem?_append_right (by omega)] at h
      rcases hoff : 8 - d1.length with _ | k
      · omega
      · rw [hoff] at h
        rw [List.getElem?_cons_succ] at h
        rw [List.getElem?_eq_some_iff] at h
        obtain ⟨hk, hk2⟩ := h
        have := ha2 sep (hk2 ▸ List.getElem_mem hk)
        rw [this] at hsep
        cases hsep
    · have hgt : 8 < d1.length := by omega
      rw [List.getElem?_append_left hgt] at h
      rw [List.getElem?_eq_some_iff] at h
      obtain ⟨hk, hk2⟩ := h
      have := ha1 sep (hk2 ▸ List.getElem_mem hk)
      rw [this] at hsep
      cases hsep
  · intro h8
    rw [List.getElem?_append_right (by omega), h8]
    simp

/-- C5: the token 123:7FF compiles to an accept rule with id 0x123, mask
0x7FF and no extended flag; 12345678:DFFFFFFF compiles with CAN_EFF_FLAG
OR'd into the id; and on any grammatical hex-colon-hex or hex-tilde-hex
token the parser ORs CAN_EFF_FLAG into the id exactly when the id token is
8 hex digits (the *(ptr+8) test of lines 488 and 496), always clearing
CAN_ERR_FLAG from the mask. -/
theorem C5_filter_token_compilation :
    parse_filter_token ("123:7FF".toList) = FilterAction.accept 0x123 0x7FF ∧
    parse_filter_token ("12345678:DFFFFFFF".toList)
      = FilterAction.accept (Nat.lor 0x12345678 CAN_EFF_FLAG) 0xDFFFFFFF ∧
    (∀ d1 d2 : List Char, d1 ≠ [] → d2 ≠ [] →
      (∀ c ∈ d1, isHex c = true) → (∀ c ∈ d2, isHex c = true) →
      parse_filter_token (d1 ++ ':' :: d2)
        = FilterAction.accept
            (if d1.length = 8 then
               Nat.lor (hexVal d1 % UINT_MOD) CAN_EFF_FLAG
             else hexVal d1 % UINT_MOD)
            (Nat.land (hexVal d2 % UINT_MOD) NOT_CAN_ERR_FLAG)) ∧
    (∀ d1 d2 : List Char, d1 ≠ [] → d2 ≠ [] →
      (∀ c ∈ d1, isHex c = true) → (∀ c ∈ d2, isHex c = true) →
      parse_filter_token (d1 ++ '~' :: d2)
        = FilterAction.accept
            (if d1.length = 8 then
               Nat.lor (Nat.lor (hexVal d1 % UINT_MOD) CAN_INV_FILTER)
                 CAN_EFF_FLAG
             else Nat.lor (hexVal d1 % UINT_MOD) CAN_INV_FILTER)
            (Nat.land (hexVal d2 % UINT_MOD) NOT_CAN_ERR_FLAG)) := by
  refine ⟨by decide, by decide, ?_, ?_⟩
  · intro d1 d2 h1 h2 ha1 ha2
    have hs := scan_on_grammar ':' d1 d2 h1 h2 ha1 ha2 (by decide)
    have hc := charAt8_grammar ':' d1 d2 ha1 ha2 (by decide)
    simp only [parse_filter_token, hs]
    by_cases h8 : d1.length = 8
    · rw [if_pos (hc.mpr h8), if_pos h8]
    · rw [if_neg (fun hcc => h8 (hc.mp hcc)), if_neg h8]
  · intro d1 d2 h1 h2 ha1 ha2
    have hs0 := scan_other_sep_fails '~' ':' d1 d2 ha1 (by decide) (by decide)
    have hs := scan_on_grammar '~' d1 d2 h1 h2 ha1 ha2 (by decide)
    have hc := charAt8_grammar '~' d1 d2 ha1 ha2 (by decide)
    simp only [parse_filter_token, hs0, hs]
    by_cases h8 : d1.length = 8
    · rw [if_pos (hc.mpr h8), if_pos h8]
    · rw [if_neg (fun hcc => h8 (hc.mp hcc)), if_neg h8]

/-- Witness for C5: the inverted token AB~1 (2-digit id) gets
CAN_INV_FILTER but not CAN_EFF_FLAG. -/
theorem C5_witness :
    parse_filter_token (['A', 'B'] ++ '~' :: ['1'])
      = FilterAction.accept
          (if ([('A' : Char), 'B']).length = 8 then
             Nat.lor (Nat.lor (hexVal ['A', 'B'] % UINT_MOD) CAN_INV_FILTER)
               CAN_EFF_FLAG
           else Nat.lor (hexVal ['A', 'B'] % UINT_MOD) CAN_INV_FILTER)
          (Nat.land (hexVal ['1'] % UINT_MOD) NOT_CAN_ERR_FLAG) :=
  C5_filter_token_compilation.2.2.2 ['A', 'B'] ['1'] (by decide) (by decide)
    (by decide) (by decide)

/-! ### Ring buffer runs: helper lemmas -/

theorem lastWrite_succ (p j : Nat) (hj : j < 256) :
    lastWrite (p + 1) j = if j = p % 256 then p + 1 else lastWrite p j := by
  unfold lastWrite
  by_cases hc : j = p % 256
  · subst hc
    rw [if_pos (by omega), if_pos (by omega)]
    omega
  · rw [if_neg hc]
    by_cases h1 : j + 1 ≤ p
    · rw [if_pos (by omega), if_pos h1]
      omega
    · by_cases h2 : j + 1 ≤ p + 1
      · exfalso
        have hjp : j = p := by omega
        subst hjp
        exact hc (by omega)
      · rw [if_neg h2, if_neg h1]

theorem lastWrite_pop_facts (p s : Nat) (hs : s < p) :
    1 ≤ lastWrite p (s % 256) ∧ lastWrite p (s % 256) ≤ p ∧
    lastWrite p (s % 256) % 256 = (s + 1) % 256 ∧
    p - lastWrite p (s % 256) < 256 := by
  unfold lastWrite
  rw [if_pos (by omega)]
  refine ⟨by omega, by omega, by omega, by omega⟩

theorem lastP_lt_lastWrite (p s lastP : Nat) (hs : s < p)
    (hne : ¬ s % 256 = p % 256)
    (hcase : (s = 0 ∧ lastP = 0) ∨
      (lastP % 256 = s % 256 ∧ lastP ≤ p ∧ 1 ≤ lastP)) :
    lastP < lastWrite p (s % 256) := by
  unfold lastWrite
  rw [if_pos (by omega)]
  omega

theorem Inv_ipush (σ : IState) (s lastP : Nat) (h : Inv σ s lastP)
    (a b : Nat) (c : List Nat) (d e : Nat) :
    Inv (ipush σ a b c d e) s lastP := by
  obtain ⟨hbp, hrp, hsle, htag, hlp⟩ := h
  refine ⟨?_, hrp, ?_, ?_, ?_⟩
  · show (σ.st.buffer_ptr + 1) % FRAME_BUFFER_SIZE = (σ.pushes + 1) % 256
    rw [hbp]
    unfold FRAME_BUFFER_SIZE
    omega
  · show s ≤ σ.pushes + 1
    omega
  · intro j hj
    show (if j = σ.st.buffer_ptr then σ.pushes + 1 else σ.tag j)
        = lastWrite (σ.pushes + 1) j
    rw [lastWrite_succ σ.pushes j hj, hbp, htag j hj]
  · rcases hlp with ⟨h0, h0'⟩ | ⟨ha, hb', hc⟩
    · exact Or.inl ⟨h0, h0'⟩
    · exact Or.inr ⟨ha, show lastP ≤ σ.pushes + 1 by omega, hc⟩

theorem ipop_none_of_eq (σ : IState) (h : σ.st.read_ptr = σ.st.buffer_ptr) :
    ipop σ = (none, σ) := by
  simp [ipop, get_frame_from_buffer, h]

theorem ipop_some_of_ne (σ : IState)
    (h : ¬ σ.st.read_ptr = σ.st.buffer_ptr) :
    ipop σ = (some (σ.tag σ.st.read_ptr, σ.pushes),
      { st := { σ.st with
                  read_ptr := (σ.st.read_ptr + 1) % FRAME_BUFFER_SIZE },
        tag := σ.tag, pushes := σ.pushes }) := by
  simp [ipop, get_frame_from_buffer, h]

theorem runOps_inv (ops : List Op) : ∀ (σ : IState) (s lastP : Nat),
    Inv σ s lastP →
    List.Pairwise (fun a b : Nat × Nat => a.1 < b.1) (runOps ops σ).2 ∧
    ∀ pr ∈ (runOps ops σ).2, lastP < pr.1 ∧ 1 ≤ pr.1 ∧ pr.1 ≤ pr.2 := by
  induction ops with
  | nil =>
    intro σ s lastP _
    simp [runOps]
  | cons op rest ih =>
    intro σ s lastP hInv
    cases op with
    | push a b c d e =>
      simpa [runOps] using
        ih (ipush σ a b c d e) s lastP (Inv_ipush σ s lastP hInv a b c d e)
    | pop =>
      obtain ⟨hbp, hrp, hsle, htag, hlp⟩ := hInv
      by_cases hc : σ.st.read_ptr = σ.st.buffer_ptr
      · have hnone := ipop_none_of_eq σ hc
        simpa [runOps, hnone] using ih σ s lastP ⟨hbp, hrp, hsle, htag, hlp⟩
      · have hsne : ¬ s % 256 = σ.pushes % 256 := by
          rw [hrp, hbp] at hc
          exact hc
        have hsp : s < σ.pushes := by omega
        have hsome := ipop_some_of_ne σ hc
        have hv : σ.tag σ.st.read_ptr = lastWrite σ.pushes (s % 256) := by
          rw [hrp]
          exact htag _ (by omega)
        obtain ⟨hv1, hv2, hv3, _⟩ := lastWrite_pop_facts σ.pushes s hsp
        have hlt : lastP < lastWrite σ.pushes (s % 256) :=
          lastP_lt_lastWrite σ.pushes s lastP hsp hsne hlp
        have hInv2 : Inv
            { st := { σ.st with
                        read_ptr := (σ.st.read_ptr + 1) % FRAME_BUFFER_SIZE },
              tag := σ.tag, pushes := σ.pushes }
            (s + 1) (lastWrite σ.pushes (s % 256)) := by
          refine ⟨hbp, ?_, show s + 1 ≤ σ.pushes by omega, htag,
            Or.inr ⟨hv3, hv2, hv1⟩⟩
          show (σ.st.read_ptr + 1) % FRAME_BUFFER_SIZE = (s + 1) % 256
          rw [hrp]
          unfold FRAME_BUFFER_SIZE
          omega
        have hrec := ih
          { st := { σ.st with
                      read_ptr := (σ.st.read_ptr + 1) % FRAME_BUFFER_SIZE },
            tag := σ.tag, pushes := σ.pushes }
          (s + 1) (lastWrite σ.pushes (s % 256)) hInv2
        have hrw : runOps (Op.pop :: rest) σ
            = ((runOps rest
                  { st := { σ.st with
                      read_ptr := (σ.st.read_ptr + 1) % FRAME_BUFFER_SIZE },
                    tag := σ.tag, pushes := σ.pushes }).1,
               (σ.tag σ.st.read_ptr, σ.pushes)
                 :: (runOps rest
                      { st := { σ.st with
                          read_ptr := (σ.st.read_ptr + 1) % FRAME_BUFFER_SIZE },
                        tag := σ.tag, pushes := σ.pushes }).2) := by
          simp [runOps, hsome]
        rw [hrw]
        constructor
        · rw [List.pairwise_cons]
          refine ⟨fun pr hpr => ?_, hrec.1⟩
          rw [hv]
          exact (hrec.2 pr hpr).1
        · intro pr hpr
          rcases List.mem_cons.mp hpr with hh | ht
          · subst hh
            exact ⟨by rw [hv]; exact hlt, by rw [hv]; exact hv1,
                   by rw [hv]; exact hv2⟩
          · obtain ⟨h1', h2', h3'⟩ := hrec.2 pr ht
            exact ⟨by omega, h2', h3'⟩

/-- C9: over any interleaving of pushes and pops, the successful pops
report strictly increasing push ordinals (no reordering, no duplicate and
no stale re-delivery), and every popped frame was pushed before the pop
(its ordinal is at least 1 and at most the number of pushes completed when
it was popped). -/
theorem C9_spsc_fifo_order (ops : List Op) :
    List.Pairwise (fun a b : Nat × Nat => a.1 < b.1) (runOps ops iinit).2 ∧
    ∀ pr ∈ (runOps ops iinit).2, 1 ≤ pr.1 ∧ pr.1 ≤ pr.2 := by
  have hInv : Inv iinit 0 0 := by
    refine ⟨rfl, rfl, Nat.le_refl 0, ?_, Or.inl ⟨rfl, rfl⟩⟩
    intro j hj
    simp [iinit, lastWrite]
  have h := runOps_inv ops iinit 0 0 hInv
  exact ⟨h.1, fun pr hpr => ⟨(h.2 pr hpr).2.1, (h.2 pr hpr).2.2⟩⟩

/-- Witness for C9: push then pop yields the first push, popped after one
push had completed. -/
theorem C9_witness :
    (1, 1) ∈ (runOps [Op.push 5 0 [] 0 0, Op.pop] iinit).2 ∧
    1 ≤ (1 : Nat) ∧ (1 : Nat) ≤ 1 := by
  have hmem : (1, 1) ∈ (runOps [Op.push 5 0 [] 0 0, Op.pop] iinit).2 := by
    decide
  exact ⟨hmem, (C9_spsc_fifo_order [Op.push 5 0 [] 0 0, Op.pop]).2 (1, 1) hmem⟩

theorem runOps_append (t1 t2 : List Op) : ∀ σ : IState,
    runOps (t1 ++ t2) σ
      = ((runOps t2 (runOps t1 σ).1).1,
         (runOps t1 σ).2 ++ (runOps t2 (runOps t1 σ).1).2) := by
  induction t1 with
  | nil =>
    intro σ
    simp [runOps]
  | cons op rest ih =>
    intro σ
    cases op with
    | push a b c d e =>
      simp [runOps, ih]
    | pop =>
      rcases hpop : ipop σ with ⟨r, σ2⟩
      cases r with
      | none => simp [runOps, hpop, ih]
      | some pr => simp [runOps, hpop, ih]

theorem pushrep_state (n : Nat) : ∀ σ : IState,
    σ.st.buffer_ptr = σ.pushes % 256 →
    (∀ j, j < 256 → σ.tag j = lastWrite σ.pushes j) →
    (runOps (List.replicate n dpush) σ).1.st.buffer_ptr
        = (σ.pushes + n) % 256 ∧
    (runOps (List.replicate n dpush) σ).1.st.read_ptr = σ.st.read_ptr ∧
    (runOps (List.replicate n dpush) σ).1.pushes = σ.pushes + n ∧
    (runOps (List.replicate n dpush) σ).2 = [] ∧
    (∀ j, j < 256 →
      (runOps (List.replicate n dpush) σ).1.tag j
        = lastWrite (σ.pushes + n) j) := by
  induction n with
  | zero =>
    intro σ hbp htag
    simpa [runOps] using ⟨hbp, htag⟩
  | succ m ih =>
    intro σ hbp htag
    have hb2 : (ipush σ 0 0 [] 0 0).st.buffer_ptr
        = (ipush σ 0 0 [] 0 0).pushes % 256 := by
      show (σ.st.buffer_ptr + 1) % FRAME_BUFFER_SIZE = (σ.pushes + 1) % 256
      rw [hbp]
      unfold FRAME_BUFFER_SIZE
      omega
    have ht2 : ∀ j, j < 256 → (ipush σ 0 0 [] 0 0).tag j
        = lastWrite (ipush σ 0 0 [] 0 0).pushes j := by
      intro j hj
      show (if j = σ.st.buffer_ptr then σ.pushes + 1 else σ.tag j)
          = lastWrite (σ.pushes + 1) j
      rw [lastWrite_succ σ.pushes j hj, hbp, htag j hj]
    obtain ⟨h1, h2, h3, h4, h5⟩ := ih (ipush σ 0 0 [] 0 0) hb2 ht2
    have hrun : runOps (List.replicate (m + 1) dpush) σ
        = runOps (List.replicate m dpush) (ipush σ 0 0 [] 0 0) := by
      rw [List.replicate_succ]
      rfl
    have h1' : (runOps (List.replicate m dpush) (ipush σ 0 0 [] 0 0)).1.st.buffer_ptr
        = (σ.pushes + 1 + m) % 256 := h1
    have h3' : (runOps (List.replicate m dpush) (ipush σ 0 0 [] 0 0)).1.pushes
        = σ.pushes + 1 + m := h3
    have h5' : ∀ j, j < 256 →
        (runOps (List.replicate m dpush) (ipush σ 0 0 [] 0 0)).1.tag j
          = lastWrite (σ.pushes + 1 + m) j := h5
    have hadd : σ.pushes + 1 + m = σ.pushes + (m + 1) := by omega
    rw [hadd] at h1' h3' h5'
    exact ⟨by rw [hrun]; exact h1', by rw [hrun]; exact h2,
           by rw [hrun]; exact h3', by rw [hrun]; exact h4,
           by rw [hrun]; exact h5'⟩

theorem drain_replicate_pop (m : Nat) : ∀ (σ : IState) (s : Nat),
    σ.st.read_ptr = s % 256 →
    σ.st.buffer_ptr = σ.pushes % 256 →
    s ≤ σ.pushes → σ.pushes - s < 256 → σ.pushes - s ≤ m →
    (∀ j, j < 256 → σ.tag j = lastWrite σ.pushes j) →
    (runOps (List.replicate m Op.pop) σ).2
      = (List.range (σ.pushes - s)).map (fun i => (s + i + 1, σ.pushes)) := by
  induction m with
  | zero =>
    intro σ s hrp hbp hsle hlt hle htag
    have h0 : σ.pushes - s = 0 := by omega
    simp [runOps, h0]
  | succ m ih =>
    intro σ s hrp hbp hsle hlt hle htag
    rw [List.replicate_succ]
    by_cases hc : σ.st.read_ptr = σ.st.buffer_ptr
    · have hs0 : σ.pushes - s = 0 := by
        rw [hrp, hbp] at hc
        omega
      have hnone := ipop_none_of_eq σ hc
      have hrest := ih σ s hrp hbp hsle hlt (by omega) htag
      simp [runOps, hnone, hrest, hs0]
    · have hsp : s < σ.pushes := by
        rw [hrp, hbp] at hc
        omega
      have hsome := ipop_some_of_ne σ hc
      have hv : σ.tag σ.st.read_ptr = lastWrite σ.pushes (s % 256) := by
        rw [hrp]
        exact htag _ (by omega)
      have hveq : lastWrite σ.pushes (s % 256) = s + 1 := by
        unfold lastWrite
        rw [if_pos (by omega)]
        omega
      have hrec := ih
        { st := { σ.st with
                    read_ptr := (σ.st.read_ptr + 1) % FRAME_BUFFER_SIZE },
          tag := σ.tag, pushes := σ.pushes }
        (s + 1)
        (show (σ.st.read_ptr + 1) % FRAME_BUFFER_SIZE = (s + 1) % 256 by
          rw [hrp]; unfold FRAME_BUFFER_SIZE; omega)
        hbp
        (show s + 1 ≤ σ.pushes by omega)
        (show σ.pushes - (s + 1) < 256 by omega)
        (show σ.pushes - (s + 1) ≤ m by omega)
        htag
      have hrw : runOps (Op.pop :: List.replicate m Op.pop) σ
          = ((runOps (List.replicate m Op.pop)
                { st := { σ.st with
                    read_ptr := (σ.st.read_ptr + 1) % FRAME_BUFFER_SIZE },
                  tag := σ.tag, pushes := σ.pushes }).1,
             (σ.tag σ.st.read_ptr, σ.pushes)
               :: (runOps (List.replicate m Op.pop)
                    { st := { σ.st with
                        read_ptr := (σ.st.read_ptr + 1) % FRAME_BUFFER_SIZE },
                      tag := σ.tag, pushes := σ.pushes }).2) := by
        simp [runOps, hsome]
      rw [hrw]
      show (σ.tag σ.st.read_ptr, σ.pushes) :: _ = _
      rw [hrec, hv, hveq]
      have hd : σ.pushes - s = (σ.pushes - (s + 1)) + 1 := by omega
      rw [hd, List.range_succ_eq_map, List.map_cons, List.map_map]
      congr 1
      norm_num
      intro a _
      omega

/-- C1 counterexample: starting from the empty buffer, 257 pushes followed
by 256 pops yield exactly one frame (the 257th push), not the 256 most
recent: the producer never advances the consumer's read cursor, so after
wrapping, read_ptr equals buffer_ptr again after just n mod 256 pops. -/
theorem C1_counterexample_257_pushes :
    (runOps (List.replicate 257 dpush ++ List.replicate 256 Op.pop) iinit).2
      = [(257, 257)] ∧
    ((runOps (List.replicate 257 dpush ++ List.replicate 256 Op.pop)
        iinit).2).length ≠ 256 := by
  have hbp0 : iinit.st.buffer_ptr = iinit.pushes % 256 := rfl
  have htag0 : ∀ j, j < 256 → iinit.tag j = lastWrite iinit.pushes j := by
    intro j _
    simp [iinit, lastWrite]
  obtain ⟨h1, h2, h3, h4, h5⟩ := pushrep_state 257 iinit hbp0 htag0
  have h1' : (runOps (List.replicate 257 dpush) iinit).1.st.buffer_ptr
      = 257 % 256 := h1
  have h2' : (runOps (List.replicate 257 dpush) iinit).1.st.read_ptr = 0 := h2
  have h3' : (runOps (List.replicate 257 dpush) iinit).1.pushes = 257 := h3
  have h5' : ∀ j, j < 256 →
      (runOps (List.replicate 257 dpush) iinit).1.tag j
        = lastWrite 257 j := h5
  rw [runOps_append, h4, List.nil_append]
  have hd := drain_replicate_pop 256
    (runOps (List.replicate 257 dpush) iinit).1 256
    (by rw [h2']) (by rw [h1', h3']) (by rw [h3']; omega)
    (by rw [h3']; omega) (by rw [h3']; omega)
    (by intro j hj; rw [h3']; exact h5' j hj)
  rw [hd, h3']
  constructor
  · decide
  · decide

/-- C1 amended: pushing n frames into the empty Ring Buffer with no
intervening pops leaves exactly n mod capacity frames readable via pop
(zero when n is a multiple of the capacity 256), and those readable frames
are the most recent n mod capacity pushes, in push order. -/
theorem C1_overfill_keeps_count_mod_capacity (n : Nat) :
    (runOps (List.replicate n dpush ++ List.replicate 256 Op.pop) iinit).2
      = (List.range (n % 256)).map (fun i => (n - n % 256 + i + 1, n)) := by
  have hbp0 : iinit.st.buffer_ptr = iinit.pushes % 256 := rfl
  have htag0 : ∀ j, j < 256 → iinit.tag j = lastWrite iinit.pushes j := by
    intro j _
    simp [iinit, lastWrite]
  obtain ⟨h1, h2, h3, h4, h5⟩ := pushrep_state n iinit hbp0 htag0
  have h1' : (runOps (List.replicate n dpush) iinit).1.st.buffer_ptr
      = (0 + n) % 256 := h1
  have h2' : (runOps (List.replicate n dpush) iinit).1.st.read_ptr = 0 := h2
  have h3' : (runOps (List.replicate n dpush) iinit).1.pushes = 0 + n := h3
  have h5' : ∀ j, j < 256 →
      (runOps (List.replicate n dpush) iinit).1.tag j
        = lastWrite (0 + n) j := h5
  rw [Nat.zero_add] at h1' h3' h5'
  rw [runOps_append, h4, List.nil_append]
  have hd := drain_replicate_pop 256
    (runOps (List.replicate n dpush) iinit).1 (n - n % 256)
    (by rw [h2']; omega) (by rw [h1', h3']) (by rw [h3']; omega)
    (by rw [h3']; omega) (by rw [h3']; omega)
    (by intro j hj; rw [h3']; exact h5' j hj)
  rw [h3'] at hd
  have hcnt : n - (n - n % 256) = n % 256 := by omega
  rw [hcnt] at hd
  exact hd

/-- Witness for C1 amended at n = 300: the 44 readable frames are pushes
257 through 300 in order. -/
theorem C1_witness :
    (runOps (List.replicate 300 dpush ++ List.replicate 256 Op.pop) iinit).2
      = (List.range (300 % 256)).map (fun i => (300 - 300 % 256 + i + 1, 300)) :=
  C1_overfill_keeps_count_mod_capacity 300

end Candump
